import Mathlib

/-!
Verification of the SysSoftCW disk-simulation repository.

This file gives a shallow embedding, in Lean 4, of the parts of the
repository relevant to the frozen claims: the hard-disk seek model
(src/core/disk.py), the two-segment LRU buffer cache
(src/core/buffer_cache.py), the N-LOOK I/O scheduler
(src/schedulers/nlook.py), the configuration validation pipeline
(src/config.py, src/main.py), and the discrete-event simulator
(src/simulator/simulator.py, src/simulator/statistics.py).

Python floats are modelled as rationals, Python ints as `Int`/`Nat`,
deques as lists whose head is the left end of the deque, dicts keyed by
sector as duplicate-free lists of sectors, and fallible code (code that
can raise) as `Option`/`Except` valued functions.

The files `src/core/events.py` and `src/core/process.py` are imported by
the sources but are not present in the repository snapshot; the `Process`
type, the event ordering, the `IORequest` record and the `Buffer` record
are therefore modelled from the specification (section 3 and section 4.4
of spec.md), as marked in their doc comments.
-/

deriving instance DecidableEq for Except

/-! ## Disk model (src/core/disk.py) -/

/-- The `HardDisk` class: immutable geometry together with the mutable
head position `current_track`.  Times are in milliseconds, modelled as
rationals. -/
structure HardDisk where
  num_tracks : Int
  sectors_per_track : Int
  seek_time_per_track : ℚ
  seek_time_to_edge : ℚ
  rpm : ℚ
  current_track : Int
deriving DecidableEq

/-- Derived constant computed in `HardDisk.__init__`:
`rotation_time = (60 * 1000) / rpm`. -/
def HardDisk.rotation_time (d : HardDisk) : ℚ := (60 * 1000) / d.rpm

/-- Derived constant: `avg_rotational_latency = rotation_time / 2`. -/
def HardDisk.avg_rotational_latency (d : HardDisk) : ℚ := d.rotation_time / 2

/-- Derived constant:
`sector_transfer_time = rotation_time / sectors_per_track`. -/
def HardDisk.sector_transfer_time (d : HardDisk) : ℚ :=
  d.rotation_time / (d.sectors_per_track : ℚ)

/-- `direct_tracks = abs(target_track - self.current_track)` in
`calculate_seek_time`. -/
def HardDisk.direct_tracks (d : HardDisk) (target_track : Int) : Int :=
  |target_track - d.current_track|

/-- `via_start_tracks = abs(self.current_track - 0) + abs(target_track - 0)`. -/
def HardDisk.via_start_tracks (d : HardDisk) (target_track : Int) : Int :=
  |d.current_track - 0| + |target_track - 0|

/-- `via_end_tracks = abs(self.current_track - (self.num_tracks - 1)) +
abs(target_track - (self.num_tracks - 1))`. -/
def HardDisk.via_end_tracks (d : HardDisk) (target_track : Int) : Int :=
  |d.current_track - (d.num_tracks - 1)| + |target_track - (d.num_tracks - 1)|

/-- `direct_time = direct_tracks * self.seek_time_per_track`. -/
def HardDisk.direct_time (d : HardDisk) (target_track : Int) : ℚ :=
  (d.direct_tracks target_track : ℚ) * d.seek_time_per_track

/-- `time_via_start = self.seek_time_to_edge + via_start_tracks *
self.seek_time_per_track`. -/
def HardDisk.time_via_start (d : HardDisk) (target_track : Int) : ℚ :=
  d.seek_time_to_edge + (d.via_start_tracks target_track : ℚ) * d.seek_time_per_track

/-- `time_via_end = self.seek_time_to_edge + via_end_tracks *
self.seek_time_per_track`. -/
def HardDisk.time_via_end (d : HardDisk) (target_track : Int) : ℚ :=
  d.seek_time_to_edge + (d.via_end_tracks target_track : ℚ) * d.seek_time_per_track

/-- `HardDisk.calculate_seek_time`: compares the three candidate paths and
returns the chosen time together with the route description string, with
the branch structure of the source (`if direct_time <= time_via_start and
direct_time <= time_via_end`, `elif time_via_start <= time_via_end`,
`else`). -/
def HardDisk.calculate_seek_time (d : HardDisk) (target_track : Int) : ℚ × String :=
  if d.direct_time target_track ≤ d.time_via_start target_track ∧
      d.direct_time target_track ≤ d.time_via_end target_track then
    (d.direct_time target_track,
      "direct " ++ toString (d.direct_tracks target_track) ++ " tracks")
  else if d.time_via_start target_track ≤ d.time_via_end target_track then
    (d.time_via_start target_track,
      "via track 0 (" ++ toString (d.via_start_tracks target_track) ++ " tracks)")
  else
    (d.time_via_end target_track,
      "via track " ++ toString (d.num_tracks - 1) ++ " (" ++
        toString (d.via_end_tracks target_track) ++ " tracks)")

/-- `HardDisk.move_head_to`: sets `current_track` to the target. -/
def HardDisk.move_head_to (d : HardDisk) (target_track : Int) : HardDisk :=
  { d with current_track := target_track }

/-! ## Two-segment LRU buffer cache (src/core/buffer_cache.py)

A `Buffer` (from the missing `core/events.py`) is, per section 3 of the
spec, a pair of a sector and a dirty-bit placeholder with equality by
sector identity; it is therefore modelled by its sector number.  The two
deques are lists whose head is the left end of the deque
(`appendleft` = `List.cons`, `pop` = remove the last element), and the
`sector_to_buffer` dict is modelled by its list of keys, which is
duplicate-free in every reachable state. -/

/-- State of `BufferCacheLRU2Q`: capacities, both segments and the key
set of the `sector_to_buffer` dict. -/
structure BufferCacheLRU2Q where
  total_buffers : Nat
  max_right_segment : Nat
  left_segment : List Nat
  right_segment : List Nat
  sector_to_buffer : List Nat
deriving DecidableEq

/-- `BufferCacheLRU2Q.__init__`: both segments and the dict start empty. -/
def BufferCacheLRU2Q.init (total_buffers max_right_segment : Nat) : BufferCacheLRU2Q :=
  ⟨total_buffers, max_right_segment, [], [], []⟩

/-- `BufferCacheLRU2Q.find_buffer`: dict lookup by sector. -/
def BufferCacheLRU2Q.find_buffer (c : BufferCacheLRU2Q) (sector : Nat) : Option Nat :=
  if sector ∈ c.sector_to_buffer then some sector else none

/-- `BufferCacheLRU2Q._add_to_right_segment`: if the right segment is at
or above `max_right_segment`, its tail element is popped and pushed to
the front of the left segment (a pop from an empty right deque raises
`IndexError`, modelled as `none`); then the buffer is pushed to the front
of the right segment. -/
def BufferCacheLRU2Q.add_to_right_segment (c : BufferCacheLRU2Q) (b : Nat) :
    Option BufferCacheLRU2Q :=
  if c.right_segment.length ≥ c.max_right_segment then
    match c.right_segment.getLast? with
    | none => none
    | some moved =>
      some { c with left_segment := moved :: c.left_segment,
                    right_segment := b :: c.right_segment.dropLast }
  else
    some { c with right_segment := b :: c.right_segment }

/-- `BufferCacheLRU2Q.access_buffer`.  On a hit the buffer is removed
from whichever segment holds it and promoted to the front of the right
segment; on a miss a fresh buffer is allocated while
`len(left) + len(right) < total_buffers`, and otherwise the last element
of the left segment (or of the right segment when the left one is empty)
is evicted and deleted from the dict; the new buffer is then recorded in
the dict and pushed to the front of the left segment.  The returned flag
is `cache_miss`; a pop from an empty deque raises, modelled as `none`. -/
def BufferCacheLRU2Q.access_buffer (c : BufferCacheLRU2Q) (sector : Nat) :
    Option (BufferCacheLRU2Q × Bool) :=
  match c.find_buffer sector with
  | some _ =>
    let c1 :=
      if sector ∈ c.left_segment then
        { c with left_segment := c.left_segment.erase sector }
      else if sector ∈ c.right_segment then
        { c with right_segment := c.right_segment.erase sector }
      else c
    match c1.add_to_right_segment sector with
    | none => none
    | some c2 => some (c2, false)
  | none =>
    if c.left_segment.length + c.right_segment.length < c.total_buffers then
      some ({ c with left_segment := sector :: c.left_segment,
                     sector_to_buffer := sector :: c.sector_to_buffer }, true)
    else
      match c.left_segment.getLast? with
      | some evicted =>
        some ({ c with left_segment := sector :: c.left_segment.dropLast,
                       sector_to_buffer :=
                         sector :: c.sector_to_buffer.erase evicted }, true)
      | none =>
        match c.right_segment.getLast? with
        | some evicted =>
          some ({ c with left_segment := [sector],
                         right_segment := c.right_segment.dropLast,
                         sector_to_buffer :=
                           sector :: c.sector_to_buffer.erase evicted }, true)
        | none => none

/-- Iterated `access_buffer` over a list of requested sectors,
propagating a raised exception as `none`. -/
def BufferCacheLRU2Q.runAccesses (sectors : List Nat) (c : BufferCacheLRU2Q) :
    Option BufferCacheLRU2Q :=
  match sectors with
  | [] => some c
  | s :: rest =>
    match c.access_buffer s with
    | none => none
    | some (c1, _) => BufferCacheLRU2Q.runAccesses rest c1

/-- Names bound to a numeric value that are visible to the f-string in
the return expression of `BufferCacheLRU2Q.get_stats`: the method body
assigns no local variable and neither the class nor the module defines a
variable named `free`, so the environment holding candidate values for
the interpolation `Free: ... buffers` is empty. -/
def getStatsNumericEnv : List (String × Nat) := []

/-- `BufferCacheLRU2Q.get_stats`: the returned f-string interpolates
`len(self.left_segment)`, `len(self.right_segment)` and the bare name
`free`; the first two evaluate, while `free` is looked up in the
environment and is unbound, raising `NameError`. -/
def BufferCacheLRU2Q.get_stats (c : BufferCacheLRU2Q) : Except String String :=
  match getStatsNumericEnv.lookup "free" with
  | none => .error "NameError: name free is not defined"
  | some free =>
    .ok ("Left segment: " ++ toString c.left_segment.length ++
      " buffers, Right segment: " ++ toString c.right_segment.length ++
      " buffers, Free: " ++ toString free ++ " buffers")

/-! ## N-LOOK scheduler (src/schedulers/nlook.py)

Only the sector of a pending request influences scheduling, and Python
removes a selected request from its deque by object identity (no
`__eq__` is defined for requests), so a pending request is modelled by
its sector together with an identity tag `rid` distinguishing distinct
request objects.  Each sub-queue additionally carries a ghost serial
number recording the order in which sub-queues were created; the serial
does not influence any computation. -/

/-- A pending I/O request as seen by the N-LOOK scheduler: the sector,
plus an identity tag for distinct request objects. -/
structure NReq where
  rid : Nat
  sector : Nat
deriving DecidableEq

/-- `IORequest.get_track`: `sector // sectors_per_track`. -/
def NReq.get_track (r : NReq) (sectors_per_track : Nat) : Nat :=
  r.sector / sectors_per_track

/-- State of `NLOOKScheduler`: the list of sub-queues, each tagged with
its ghost creation serial, the per-queue capacity, and the next unused
serial. -/
structure NLOOKScheduler where
  queues : List (Nat × List NReq)
  max_queue_length : Nat
  next_queue_serial : Nat
deriving DecidableEq

/-- `NLOOKScheduler.__init__`: one empty sub-queue (serial 0). -/
def NLOOKScheduler.init (max_queue_length : Nat) : NLOOKScheduler :=
  ⟨[(0, [])], max_queue_length, 1⟩

/-- `NLOOKScheduler.add_request`: recreate a sub-queue when the list is
empty, open a fresh tail sub-queue when the current tail is full, then
append the request to the tail sub-queue. -/
def NLOOKScheduler.add_request (st : NLOOKScheduler) (r : NReq) : NLOOKScheduler :=
  let qs := if st.queues.isEmpty then [(st.next_queue_serial, ([] : List NReq))] else st.queues
  let ser := if st.queues.isEmpty then st.next_queue_serial + 1 else st.next_queue_serial
  match qs.getLast? with
  | none => st
  | some (tag, lastq) =>
    if lastq.length ≥ st.max_queue_length then
      { queues := qs ++ [(ser, [r])],
        max_queue_length := st.max_queue_length,
        next_queue_serial := ser + 1 }
    else
      { queues := qs.dropLast ++ [(tag, lastq ++ [r])],
        max_queue_length := st.max_queue_length,
        next_queue_serial := ser }

/-- One step of the stable insertion underlying `sortByTrack`: the new
element is placed after every already-placed element with a strictly
smaller-or-equal track only if that track is strictly smaller, i.e.
before the first element whose track is `≥` its own, which reproduces
the stable order of Python `sorted(..., key=track)`. -/
def sortedInsert (spt : Nat) (x : NReq) : List NReq → List NReq
  | [] => [x]
  | y :: ys =>
    if y.get_track spt < x.get_track spt then y :: sortedInsert spt x ys
    else x :: y :: ys

/-- `sorted(current_queue, key=lambda r: r.get_track(...))`: a stable
sort of the sub-queue by track, ascending. -/
def sortByTrack (spt : Nat) (l : List NReq) : List NReq :=
  l.foldr (sortedInsert spt) []

/-- `NLOOKScheduler.get_next_request`: drop empty sub-queues, stop if
none remain; sort the head sub-queue by track ascending; take the first
request with track `≥ current_track`, falling back to the first element
of the sorted queue; remove the selected request from the head sub-queue
and discard that sub-queue if it became empty. -/
def NLOOKScheduler.get_next_request (st : NLOOKScheduler)
    (current_track spt : Nat) : NLOOKScheduler × Option NReq :=
  match st.queues.filter (fun q => ¬ q.2.isEmpty) with
  | [] => ({ st with queues := [] }, none)
  | (tag, cur) :: rest =>
    let sorted := sortByTrack spt cur
    let selected :=
      match sorted.find? (fun r => current_track ≤ r.get_track spt) with
      | some r => some r
      | none => sorted.head?
    match selected with
    | none => ({ st with queues := (tag, cur) :: rest }, none)
    | some r =>
      let cur1 := cur.erase r
      if cur1.isEmpty then ({ st with queues := rest }, some r)
      else ({ st with queues := (tag, cur1) :: rest }, some r)

/-- Commands for exercising the scheduler under an arbitrary
interleaving of submissions and selections. -/
inductive NCmd where
  | add (r : NReq)
  | pick (current_track spt : Nat)

/-- Run a list of commands from a scheduler state, discarding the
requests returned by selections. -/
def NLOOKScheduler.runCmds (cmds : List NCmd) (st : NLOOKScheduler) : NLOOKScheduler :=
  match cmds with
  | [] => st
  | NCmd.add r :: rest => NLOOKScheduler.runCmds rest (st.add_request r)
  | NCmd.pick ct spt :: rest =>
    NLOOKScheduler.runCmds rest (st.get_next_request ct spt).1

/-! ## Configuration validation (src/config.py and src/main.py)

`ValueError`s raised by `validate_config`, `create_scheduler` and
`create_scenario` are modelled as `Except String` errors (the message
text is summarized in English; `main` catches `ValueError`, prints the
message to standard error and exits with code 1 before
`simulator.run()` is reached). -/

/-- The `SystemConfig` dataclass. -/
structure SystemConfig where
  num_tracks : Int
  sectors_per_track : Int
  seek_time_per_track : ℚ
  seek_time_to_edge : ℚ
  rpm : Int
  total_buffers : Int
  max_right_segment : Int
  quantum : ℚ
  syscall_time : ℚ
  interrupt_time : ℚ
  compute_time : ℚ
  scheduler_name : String
  num_processes : Int
  scenario_name : String
  verbose : Bool

/-- The dataclass defaults of `SystemConfig` (decimal defaults written
as fractions: `seek_time_per_track=0.5`, `syscall_time=0.15`,
`interrupt_time=0.05`). -/
def SystemConfig.default : SystemConfig :=
  { num_tracks := 10000, sectors_per_track := 500,
    seek_time_per_track := 1 / 2, seek_time_to_edge := 10, rpm := 7500,
    total_buffers := 10, max_right_segment := 5,
    quantum := 20, syscall_time := 3 / 20, interrupt_time := 1 / 20,
    compute_time := 7, scheduler_name := "fifo", num_processes := 2,
    scenario_name := "default", verbose := false }

/-- The `valid_schedulers` list inside `validate_config` (it includes
`flook`, which `create_scheduler` does not construct). -/
def valid_schedulers : List String := ["fifo", "look", "nlook", "flook"]

/-- Python `str.lower()`, modelled character by character (the names
involved are ASCII). -/
def pyLower (s : String) : String := String.mk (s.data.map Char.toLower)

/-- `validate_config`: the chain of checks in source order, raising
`ValueError` at the first violated one.  Scenario names are not checked
here. -/
def validate_config (c : SystemConfig) : Except String Unit :=
  if c.num_tracks ≤ 0 then .error "num_tracks must be positive"
  else if c.sectors_per_track ≤ 0 then .error "sectors_per_track must be positive"
  else if c.seek_time_per_track < 0 then .error "seek_time_per_track must be non-negative"
  else if c.seek_time_to_edge < 0 then .error "seek_time_to_edge must be non-negative"
  else if c.rpm ≤ 0 then .error "rpm must be positive"
  else if c.total_buffers ≤ 0 then .error "total_buffers must be positive"
  else if c.max_right_segment ≥ c.total_buffers then
    .error "max_right_segment must be smaller than total_buffers"
  else if c.quantum ≤ 0 then .error "quantum must be positive"
  else if c.syscall_time < 0 then .error "syscall_time must be non-negative"
  else if c.interrupt_time < 0 then .error "interrupt_time must be non-negative"
  else if c.compute_time < 0 then .error "compute_time must be non-negative"
  else if c.num_processes ≤ 0 then .error "num_processes must be positive"
  else if pyLower c.scheduler_name ∈ valid_schedulers then .ok ()
  else .error "unknown scheduling algorithm"

/-- The scheduler classes `create_scheduler` can instantiate. -/
inductive SchedulerKind where
  | fifo | look | nlook
deriving DecidableEq

/-- `create_scheduler` in `main.py`: dictionary dispatch on the
lower-cased name, raising `ValueError` for a name not in the
dictionary. -/
def create_scheduler (scheduler_name : String) : Except String SchedulerKind :=
  if pyLower scheduler_name = "fifo" then .ok SchedulerKind.fifo
  else if pyLower scheduler_name = "look" then .ok SchedulerKind.look
  else if pyLower scheduler_name = "nlook" then .ok SchedulerKind.nlook
  else .error "unknown scheduling algorithm"

/-- The scenario generators `create_scenario` can dispatch to. -/
inductive ScenarioKind where
  | default | sequential | random | cacheTest
deriving DecidableEq

/-- `create_scenario` in `main.py`: dictionary dispatch on the
lower-cased name, raising `ValueError` for a name not in the
dictionary. -/
def create_scenario (scenario_name : String) : Except String ScenarioKind :=
  if pyLower scenario_name = "default" then .ok ScenarioKind.default
  else if pyLower scenario_name = "sequential" then .ok ScenarioKind.sequential
  else if pyLower scenario_name = "random" then .ok ScenarioKind.random
  else if pyLower scenario_name = "cache-test" then .ok ScenarioKind.cacheTest
  else .error "unknown scenario"

/-- The configuration phase of `main()` before `simulator.run()`:
`validate_config`, then `create_scheduler`, then `create_scenario`, in
source order; any raised `ValueError` is caught by `main`, reported to
standard error, and the engine is never started. -/
def main_config_phase (c : SystemConfig) : Except String Unit := do
  validate_config c
  let _ ← create_scheduler c.scheduler_name
  let _ ← create_scenario c.scenario_name
  .ok ()

/-! ## Discrete-event simulator (src/simulator/simulator.py)

The simulator object is generic in the buffer cache and the I/O
scheduler it is constructed with, exactly as the Python constructor is
(both collaborators are duck-typed constructor arguments); the cache of
src/core/buffer_cache.py and the FIFO scheduler of
src/schedulers/fifo.py are instances.  Events reference processes by
pid (the process list holds each process exactly once, so updating the
list entry with a given pid models mutating the shared object). -/

/-- The `RequestType` enum (`READ`/`WRITE`) from the missing
`core/events.py`, modelled from the spec (section 3). -/
inductive RW where
  | READ | WRITE
deriving DecidableEq

/-- `Process`.  Modelled from the spec: section 4.4 specifies
`peek_next_request()` (called `get_next_request` by the callers in
`simulator.py` and it does not advance the cursor), `advance()`,
`is_finished()` and the mutable fields `state` and remaining quantum;
`statistics.py` reads the field names `pid`, `current_index`,
`sector_sequence` and `state`.  The initial state is READY with the
cursor at 0. -/
structure Process where
  pid : Nat
  sector_sequence : List (RW × Nat)
  current_index : Nat
  state : String
  quantum_remaining : ℚ
deriving DecidableEq

/-- A fresh process: READY, cursor 0 (spec section 3). -/
def Process.mk0 (pid : Nat) (reqs : List (RW × Nat)) : Process :=
  ⟨pid, reqs, 0, "READY", 0⟩

/-- `peek_next_request` (spec section 4.4): the request under the
cursor, if any; does not advance. -/
def Process.get_next_request (p : Process) : Option (RW × Nat) :=
  p.sector_sequence.get? p.current_index

/-- `advance`: move the cursor forward by one. -/
def Process.advance (p : Process) : Process :=
  { p with current_index := p.current_index + 1 }

/-- `is_finished`: the cursor has passed the last request. -/
def Process.is_finished (p : Process) : Bool :=
  p.sector_sequence.length ≤ p.current_index

/-- `IORequest` from the missing `core/events.py`, modelled from the
spec (section 3): sector, operation, originating process id, submission
time. -/
structure IORequest where
  sector : Nat
  request_type : RW
  process_id : Nat
  submission_time : ℚ
deriving DecidableEq

/-- `IORequest.get_track`: `sector // sectors_per_track` (spec section 3,
used by `simulator.py` and the schedulers). -/
def IORequest.get_track (r : IORequest) (sectors_per_track : Int) : Int :=
  (r.sector : Int) / sectors_per_track

/-- The `EventType` discriminator together with the payload each handler
reads from `event.data`, with process references replaced by pids. -/
inductive EvKind where
  | process_start (pid : Nat)
  | syscall_start (pid : Nat) (req_type : RW) (sector : Nat)
  | syscall_end (pid : Nat) (cache_miss : Bool) (req_type : RW) (sector : Nat)
  | disk_seek_end
  | disk_rotation_end
  | disk_transfer_end
  | interrupt_start
  | interrupt_end (pid : Nat)
  | process_compute (pid : Nat)
deriving DecidableEq

/-- An `Event` in the priority queue.  Modelled from the spec (section
3): events are ordered by time ascending with ties broken by FIFO
insertion order, realized by a monotone insertion sequence number
(`core/events.py`, which defines the ordering, is missing from the
snapshot). -/
structure Ev where
  time : ℚ
  seq : Nat
  kind : EvKind
deriving DecidableEq

/-- The event order: by `(time, seq)` lexicographically. -/
def Ev.le (a b : Ev) : Bool :=
  if a.time < b.time then true
  else if b.time < a.time then false
  else a.seq ≤ b.seq

/-- Pop the minimal event of the queue (the `heapq.heappop`): returns it
together with the remaining queue. -/
def popMinEv : List Ev → Option (Ev × List Ev)
  | [] => none
  | e :: rest =>
    match popMinEv rest with
    | none => some (e, [])
    | some (m, r) => if e.le m then some (e, rest) else some (m, e :: r)

/-- The `Statistics` object (src/simulator/statistics.py); the set of
finished pids is a duplicate-free list. -/
structure Statistics where
  total_disk_seeks : Nat
  total_disk_time : ℚ
  cache_hits : Nat
  cache_misses : Nat
  finished_processes : List Nat
deriving DecidableEq

/-- `Statistics.__init__`. -/
def Statistics.init : Statistics := ⟨0, 0, 0, 0, []⟩

/-- `record_disk_seek`. -/
def Statistics.record_disk_seek (st : Statistics) (seek_time : ℚ) : Statistics :=
  { st with total_disk_seeks := st.total_disk_seeks + 1,
            total_disk_time := st.total_disk_time + seek_time }

/-- `record_cache_hit`. -/
def Statistics.record_cache_hit (st : Statistics) : Statistics :=
  { st with cache_hits := st.cache_hits + 1 }

/-- `record_cache_miss`. -/
def Statistics.record_cache_miss (st : Statistics) : Statistics :=
  { st with cache_misses := st.cache_misses + 1 }

/-- `process_finished`: add to the set of finished pids. -/
def Statistics.process_finished (st : Statistics) (pid : Nat) : Statistics :=
  if pid ∈ st.finished_processes then st
  else { st with finished_processes := pid :: st.finished_processes }

/-- The timing parameters the `Simulator` constructor receives. -/
structure SimCfg where
  quantum : ℚ
  syscall_time : ℚ
  interrupt_time : ℚ
  compute_time : ℚ

/-- The buffer-cache collaborator: `access_buffer` returns the updated
cache and the `cache_miss` flag (`none` models a raised exception). -/
structure CacheModel (σ : Type) where
  access_buffer : Nat → σ → Option (σ × Bool)

/-- The I/O-scheduler collaborator: `add_request` and
`get_next_request`; the latter sees the disk for `current_track` and
`sectors_per_track`. -/
structure SchedModel (κ : Type) where
  add_request : IORequest → κ → κ
  get_next_request : HardDisk → κ → κ × Option IORequest

/-- The mutable state of the `Simulator` object, plus the list of
dispatched events (`trace`), which models the order of the handler runs
visible in the log. -/
structure SimState (σ κ : Type) where
  disk : HardDisk
  cache : σ
  sched : κ
  procs : List Process
  current_time : ℚ
  event_queue : List Ev
  next_seq : Nat
  current_process : Option Nat
  current_io_request : Option IORequest
  stats : Statistics
  trace : List Ev

/-- `Simulator.schedule_event`: push an event at `current_time + delay`
with the next insertion sequence number. -/
def schedule_event {σ κ : Type} (s : SimState σ κ) (delay : ℚ) (k : EvKind) :
    SimState σ κ :=
  { s with event_queue := s.event_queue ++ [⟨s.current_time + delay, s.next_seq, k⟩],
           next_seq := s.next_seq + 1 }

/-- Update the process with the given pid in the process list (the model
of mutating the shared `Process` object). -/
def updProc {σ κ : Type} (s : SimState σ κ) (pid : Nat) (f : Process → Process) :
    SimState σ κ :=
  { s with procs := s.procs.map (fun p => if p.pid = pid then f p else p) }

/-- Look up the process with the given pid. -/
def findProc {σ κ : Type} (s : SimState σ κ) (pid : Nat) : Option Process :=
  s.procs.find? (fun p => p.pid = pid)

/-- `Simulator.schedule_next_process`: pick the first READY process of
the process list; if none, clear `current_process` and schedule
nothing. -/
def schedule_next_process {σ κ : Type} (s : SimState σ κ) : SimState σ κ :=
  match s.procs.filter (fun p => p.state = "READY") with
  | [] => { s with current_process := none }
  | p :: _ => schedule_event s 0 (EvKind.process_start p.pid)

/-- `Simulator.start_disk_operation`: if no request is in flight, ask
the scheduler for one; on success it becomes current, its seek time is
computed and recorded, and `DISK_SEEK_END` is scheduled after the seek
(at once when the seek time is not positive). -/
def start_disk_operation {σ κ : Type} (sm : SchedModel κ) (s : SimState σ κ) :
    SimState σ κ :=
  match s.current_io_request with
  | some _ => s
  | none =>
    match sm.get_next_request s.disk s.sched with
    | (k1, none) => { s with sched := k1 }
    | (k1, some req) =>
      let s := { s with sched := k1, current_io_request := some req }
      let target := req.get_track s.disk.sectors_per_track
      let seek := (s.disk.calculate_seek_time target).1
      let s := { s with stats := s.stats.record_disk_seek seek }
      if 0 < seek then schedule_event s seek EvKind.disk_seek_end
      else schedule_event s 0 EvKind.disk_seek_end

/-- `Simulator.handle_process_start`. -/
def handle_process_start {σ κ : Type} (cfg : SimCfg) (pid : Nat)
    (s : SimState σ κ) : Option (SimState σ κ) :=
  match findProc s pid with
  | none => none
  | some p0 =>
    let s := updProc s pid
      (fun p => { p with state := "RUNNING", quantum_remaining := cfg.quantum })
    let s := { s with current_process := some pid }
    match p0.get_next_request with
    | some (rt, sector) =>
      some (schedule_event s 0 (EvKind.syscall_start pid rt sector))
    | none =>
      let s := updProc s pid (fun p => { p with state := "FINISHED" })
      let s := { s with stats := s.stats.process_finished pid }
      some (schedule_next_process s)

/-- `Simulator.handle_syscall_start`. -/
def handle_syscall_start {σ κ : Type} (cm : CacheModel σ) (cfg : SimCfg)
    (pid : Nat) (rt : RW) (sector : Nat) (s : SimState σ κ) :
    Option (SimState σ κ) :=
  match findProc s pid with
  | none => none
  | some _ =>
    let s := updProc s pid
      (fun p => { p with quantum_remaining := p.quantum_remaining - cfg.syscall_time })
    match cm.access_buffer sector s.cache with
    | none => none
    | some (c1, cache_miss) =>
      let s := { s with cache := c1 }
      let s :=
        if cache_miss then { s with stats := s.stats.record_cache_miss }
        else { s with stats := s.stats.record_cache_hit }
      some (schedule_event s cfg.syscall_time
        (EvKind.syscall_end pid cache_miss rt sector))

/-- `Simulator.handle_syscall_end`. -/
def handle_syscall_end {σ κ : Type} (sm : SchedModel κ) (cfg : SimCfg)
    (pid : Nat) (cache_miss : Bool) (rt : RW) (sector : Nat)
    (s : SimState σ κ) : Option (SimState σ κ) :=
  if cache_miss then
    let s := updProc s pid (fun p => { p with state := "BLOCKED" })
    let req : IORequest := ⟨sector, rt, pid, s.current_time⟩
    let s := { s with sched := sm.add_request req s.sched }
    let s :=
      match s.current_io_request with
      | none => start_disk_operation sm s
      | some _ => s
    some (schedule_next_process s)
  else
    let s := updProc s pid Process.advance
    some (schedule_event s cfg.compute_time (EvKind.process_compute pid))

/-- `Simulator.handle_disk_seek_end`: move the head to the track of the
current request (an absent current request would raise, modelled as
`none`), then schedule `DISK_ROTATION_END` after the average rotational
latency. -/
def handle_disk_seek_end {σ κ : Type} (s : SimState σ κ) :
    Option (SimState σ κ) :=
  match s.current_io_request with
  | none => none
  | some req =>
    let target := req.get_track s.disk.sectors_per_track
    let s := { s with disk := s.disk.move_head_to target }
    some (schedule_event s s.disk.avg_rotational_latency EvKind.disk_rotation_end)

/-- `Simulator.handle_disk_rotation_end`. -/
def handle_disk_rotation_end {σ κ : Type} (s : SimState σ κ) :
    Option (SimState σ κ) :=
  match s.current_io_request with
  | none => none
  | some _ =>
    some (schedule_event s s.disk.sector_transfer_time EvKind.disk_transfer_end)

/-- `Simulator.handle_disk_transfer_end`. -/
def handle_disk_transfer_end {σ κ : Type} (s : SimState σ κ) :
    Option (SimState σ κ) :=
  match s.current_io_request with
  | none => none
  | some _ => some (schedule_event s 0 EvKind.interrupt_start)

/-- `Simulator.handle_interrupt_start`: debit the interrupt time from
the current process if any; look up the owner of the in-flight request,
log an error and stop handling if it is missing, else schedule
`INTERRUPT_END` for it. -/
def handle_interrupt_start {σ κ : Type} (cfg : SimCfg) (s : SimState σ κ) :
    Option (SimState σ κ) :=
  match s.current_io_request with
  | none => none
  | some req =>
    let s :=
      match s.current_process with
      | some cp => updProc s cp
          (fun p => { p with quantum_remaining := p.quantum_remaining - cfg.interrupt_time })
      | none => s
    match findProc s req.process_id with
    | none => some s
    | some _ => some (schedule_event s cfg.interrupt_time
        (EvKind.interrupt_end req.process_id))

/-- `Simulator.handle_interrupt_end`: unblock the owner (READY), advance
its cursor, clear the in-flight slot and start the next disk operation.
No process is rescheduled here. -/
def handle_interrupt_end {σ κ : Type} (sm : SchedModel κ) (pid : Nat)
    (s : SimState σ κ) : Option (SimState σ κ) :=
  let s := updProc s pid (fun p => Process.advance { p with state := "READY" })
  let s := { s with current_io_request := none }
  some (start_disk_operation sm s)

/-- `Simulator.handle_process_compute`: debit the compute time; on an
exhausted quantum only call `schedule_next_process` (the preempted
process keeps state RUNNING); otherwise issue the next syscall or finish
the process. -/
def handle_process_compute {σ κ : Type} (cfg : SimCfg) (pid : Nat)
    (s : SimState σ κ) : Option (SimState σ κ) :=
  match findProc s pid with
  | none => none
  | some _ =>
    let s := updProc s pid
      (fun p => { p with quantum_remaining := p.quantum_remaining - cfg.compute_time })
    match findProc s pid with
    | none => none
    | some p =>
      if p.quantum_remaining ≤ 0 then some (schedule_next_process s)
      else if ¬ p.is_finished then
        match p.get_next_request with
        | none => none
        | some (rt, sector) =>
          some (schedule_event s 0 (EvKind.syscall_start pid rt sector))
      else
        let s := updProc s pid (fun p => { p with state := "FINISHED" })
        let s := { s with stats := s.stats.process_finished pid }
        some (schedule_next_process s)

/-- Dispatch one popped event to its handler (the `elif` chain of
`Simulator.run`). -/
def handle_event {σ κ : Type} (cm : CacheModel σ) (sm : SchedModel κ)
    (cfg : SimCfg) (k : EvKind) (s : SimState σ κ) : Option (SimState σ κ) :=
  match k with
  | EvKind.process_start pid => handle_process_start cfg pid s
  | EvKind.syscall_start pid rt sector => handle_syscall_start cm cfg pid rt sector s
  | EvKind.syscall_end pid miss rt sector => handle_syscall_end sm cfg pid miss rt sector s
  | EvKind.disk_seek_end => handle_disk_seek_end s
  | EvKind.disk_rotation_end => handle_disk_rotation_end s
  | EvKind.disk_transfer_end => handle_disk_transfer_end s
  | EvKind.interrupt_start => handle_interrupt_start cfg s
  | EvKind.interrupt_end pid => handle_interrupt_end sm pid s
  | EvKind.process_compute pid => handle_process_compute cfg pid s

/-- The event loop of `Simulator.run`, with explicit fuel (`none` on
exhausted fuel or on a raised exception): pop the earliest event,
advance the clock, dispatch, and stop when every process is finished or
the queue has drained. -/
def run_loop {σ κ : Type} (cm : CacheModel σ) (sm : SchedModel κ) (cfg : SimCfg) :
    Nat → SimState σ κ → Option (SimState σ κ)
  | 0, _ => none
  | fuel + 1, s =>
    match popMinEv s.event_queue with
    | none => some s
    | some (e, rest) =>
      let s := { s with event_queue := rest, current_time := e.time,
                        trace := s.trace ++ [e] }
      match handle_event cm sm cfg e.kind s with
      | none => none
      | some s1 =>
        if s1.stats.finished_processes.length = s1.procs.length then some s1
        else run_loop cm sm cfg fuel s1

/-- `Simulator.run`: seed `PROCESS_START(processes[0])` at time 0 when
the process list is non-empty, then run the loop. -/
def Simulator.run {σ κ : Type} (cm : CacheModel σ) (sm : SchedModel κ)
    (cfg : SimCfg) (fuel : Nat) (s : SimState σ κ) : Option (SimState σ κ) :=
  match s.procs with
  | [] => run_loop cm sm cfg fuel s
  | p :: _ => run_loop cm sm cfg fuel (schedule_event s 0 (EvKind.process_start p.pid))

/-- A freshly constructed simulator state. -/
def SimState.init {σ κ : Type} (disk : HardDisk) (cache : σ) (sched : κ)
    (procs : List Process) : SimState σ κ :=
  { disk := disk, cache := cache, sched := sched, procs := procs,
    current_time := 0, event_queue := [], next_seq := 0,
    current_process := none, current_io_request := none,
    stats := Statistics.init, trace := [] }

/-- The real buffer cache as the cache collaborator. -/
def realCache : CacheModel BufferCacheLRU2Q :=
  ⟨fun sector c => c.access_buffer sector⟩

/-- The FIFO scheduler of src/schedulers/fifo.py as the scheduler
collaborator: `add_request` appends to the single queue (the base-class
method), `get_next_request` pops the queue head and ignores the disk. -/
def fifoSched : SchedModel (List IORequest) :=
  ⟨fun r q => q ++ [r],
   fun _ q => match q with
     | [] => ([], none)
     | r :: rest => (rest, some r)⟩

/-- A cache collaborator on which every access is a hit, as stipulated
by the all-hits workload of spec section 8, scenario 6. -/
def alwaysHitCache : CacheModel Unit :=
  ⟨fun _ u => some (u, false)⟩

/-- `Statistics.get_cache_hit_rate`: percentage of hits, 0 when no
access happened. -/
def Statistics.get_cache_hit_rate (st : Statistics) : ℚ :=
  if st.cache_hits + st.cache_misses = 0 then 0
  else (st.cache_hits : ℚ) / ((st.cache_hits + st.cache_misses : Nat) : ℚ) * 100

/-- `Statistics.print_statistics`: the lines printed after a run, as a
list of strings; the cache block interpolates
`simulator.buffer_cache.get_stats()`, so a `NameError` raised there
propagates (modelled by the `Except` bind). -/
def Statistics.print_statistics (st : Statistics) (current_time : ℚ)
    (procs : List Process) (cache : BufferCacheLRU2Q) :
    Except String (List String) := do
  let header := ["STATISTICS:",
    "  total simulation time: " ++ toString current_time ++ " ms",
    "  disk head seeks: " ++ toString st.total_disk_seeks,
    "  total seek time: " ++ toString st.total_disk_time ++ " ms",
    "CACHE STATISTICS:",
    "  hits: " ++ toString st.cache_hits,
    "  misses: " ++ toString st.cache_misses,
    "  hit rate: " ++ toString st.get_cache_hit_rate]
  let cache_line ← cache.get_stats
  let proc_lines := procs.map (fun p =>
    "  Process " ++ toString p.pid ++ ": " ++ toString p.current_index ++
      "/" ++ toString p.sector_sequence.length ++ " operations, state: " ++
      (if p.is_finished then "FINISHED" else p.state))
  .ok (header ++ [cache_line] ++
    ["PROCESS STATISTICS:",
     "  processes: " ++ toString procs.length,
     "  finished: " ++ toString st.finished_processes.length] ++ proc_lines)

/-! ## Concrete workloads for the end-to-end claims -/

/-- The disk built by `main` from the dataclass defaults: 10000 tracks,
500 sectors per track, 0.5 ms per track, 10 ms to the edge, 7500 rpm,
head initially at track 0. -/
def c1Disk : HardDisk := ⟨10000, 500, 1 / 2, 10, 7500, 0⟩

/-- The timing parameters from the dataclass defaults (`quantum=20`,
`syscall_time=0.15`, `interrupt_time=0.05`, `compute_time=7`). -/
def c1Cfg : SimCfg := ⟨20, 3 / 20, 1 / 20, 7⟩

/-- One process whose request list is `[READ 100, READ 100, READ 100]`. -/
def c1Proc : Process := Process.mk0 1 [(RW.READ, 100), (RW.READ, 100), (RW.READ, 100)]

/-- The simulator of the pure-hit scenario: the single process above,
the real cache with the default capacities (10 buffers ≥ 1), the FIFO
scheduler. -/
def c1Init : SimState BufferCacheLRU2Q (List IORequest) :=
  SimState.init c1Disk (BufferCacheLRU2Q.init 10 5) [] [c1Proc]

/-- The completed run of the pure-hit scenario (fuel 60 is ample: the
run dispatches 8 events). -/
def c1Run : Option (SimState BufferCacheLRU2Q (List IORequest)) :=
  Simulator.run realCache fifoSched c1Cfg 60 c1Init

/-- The observable outcome of a run used by the end-to-end claims. -/
structure SimObs where
  cache_hits : Nat
  cache_misses : Nat
  total_disk_seeks : Nat
  finished : List Nat
  left : List Nat
  right : List Nat
  proc_states : List (String × Nat)
deriving DecidableEq

/-- Project a final state onto its observable outcome. -/
def observeC1 (s : SimState BufferCacheLRU2Q (List IORequest)) : SimObs :=
  ⟨s.stats.cache_hits, s.stats.cache_misses, s.stats.total_disk_seeks,
   s.stats.finished_processes, s.cache.left_segment, s.cache.right_segment,
   s.procs.map (fun p => (p.state, p.current_index))⟩

/-- Timing of the quantum-preemption scenario of spec section 8,
scenario 6: `quantum=10`, `syscall_time=3`, `compute_time=8`
(`interrupt_time=1`, never charged since no access misses). -/
def c2Cfg : SimCfg := ⟨10, 3, 1, 8⟩

/-- Two processes with two requests each. -/
def c2Procs : List Process :=
  [Process.mk0 1 [(RW.READ, 100), (RW.READ, 200)],
   Process.mk0 2 [(RW.READ, 300), (RW.READ, 400)]]

/-- The simulator of the all-hits two-process scenario. -/
def c2Init : SimState Unit (List IORequest) :=
  SimState.init c1Disk () [] c2Procs

/-- The completed run of the all-hits two-process scenario. -/
def c2Run : Option (SimState Unit (List IORequest)) :=
  Simulator.run alwaysHitCache fifoSched c2Cfg 60 c2Init

/-! ## Invariants used by the claims -/

/-- The cache invariant: the size bounds of the claim, plus the
consistency facts needed to propagate them (no sector occurs twice
across the segments, the dict keys are duplicate-free, and the dict is
an exact inverse of segment membership). -/
def BufferCacheLRU2Q.Inv (c : BufferCacheLRU2Q) : Prop :=
  c.right_segment.length ≤ c.max_right_segment ∧
  c.left_segment.length + c.right_segment.length ≤ c.total_buffers ∧
  (c.left_segment ++ c.right_segment).Nodup ∧
  c.sector_to_buffer.Nodup ∧
  ∀ x : Nat, x ∈ c.sector_to_buffer ↔ x ∈ c.left_segment ∨ x ∈ c.right_segment

/-- The N-LOOK scheduler invariant: the ghost serials of the sub-queue
list are strictly increasing, and all are below the next unused
serial. -/
def NLOOKScheduler.Inv (st : NLOOKScheduler) : Prop :=
  st.queues.Pairwise (fun a b => a.1 < b.1) ∧
  ∀ q ∈ st.queues, q.1 < st.next_queue_serial

unseal Rat.add Rat.mul Rat.inv Rat.sub in
example :
    (HardDisk.calculate_seek_time
      ⟨100, 10, 1, 5, 7500, 90⟩ 2).1 = 88 := by decide

/-! ## Claims -/

unseal Rat.add Rat.mul Rat.inv Rat.sub in
/-- C1: for the workload of one process with requests
`[READ 100, READ 100, READ 100]` and the default cache
(`total_buffers = 10 ≥ 1`), the completed run records 1 cache miss and
0 cache hits (not 2), performs exactly 1 disk seek, leaves the final
cache state with left segment `[100]` and empty right segment (not the
claimed `R=[100]`, `L=[]`), and ends with the process unfinished in
state READY after its first request: `handle_interrupt_end` never
reschedules the unblocked process, so the event queue drains after the
only disk I/O completes. -/
theorem claim1_pure_hit_scenario_run :
    c1Run.map observeC1 = some ⟨0, 1, 1, [], [100], [], [("READY", 1)]⟩ := by
  decide

unseal Rat.add Rat.mul Rat.inv Rat.sub in
/-- C2: with `quantum=10`, `syscall_time=3`, `compute_time=8` and every
access a hit, P1 is preempted with remaining quantum `10-3-8 = -1` and
P2 indeed runs next — but thereafter no round-robin alternation happens:
the dispatched-event trace ends after P2's first compute, and both
processes are left in state RUNNING (never reset to READY on
preemption) with remaining quantum -1 and only 1 of their 2 requests
done. -/
theorem claim2_quantum_preemption_run :
    c2Run.map (fun s => s.trace.map Ev.kind) =
      some [EvKind.process_start 1, EvKind.syscall_start 1 RW.READ 100,
        EvKind.syscall_end 1 false RW.READ 100, EvKind.process_compute 1,
        EvKind.process_start 2, EvKind.syscall_start 2 RW.READ 300,
        EvKind.syscall_end 2 false RW.READ 300, EvKind.process_compute 2] ∧
    c2Run.map (fun s => s.procs.map
        (fun p => (p.state, p.current_index, p.quantum_remaining))) =
      some [("RUNNING", 1, -1), ("RUNNING", 1, -1)] := by
  exact ⟨by decide, by decide⟩

/-- C3: `BufferCacheLRU2Q.get_stats` never returns the occupancy
string: its f-string reads the unbound name `free`, so it raises
`NameError`, and `Statistics.print_statistics`, which interpolates
`get_stats()`, propagates that error for every final state. -/
theorem claim3_get_stats_raises :
    ∀ (st : Statistics) (t : ℚ) (procs : List Process) (c : BufferCacheLRU2Q),
      c.get_stats = Except.error "NameError: name free is not defined" ∧
      st.print_statistics t procs c =
        Except.error "NameError: name free is not defined" := by
  intro st t procs c
  exact ⟨rfl, rfl⟩

unseal Rat.add Rat.mul Rat.inv Rat.sub in
/-- C4 counterexample: the scheduler name `FIFO` is outside the set
`{fifo, look, nlook}`, yet the whole configuration phase of `main`
(`validate_config`, `create_scheduler`, `create_scenario`) accepts it
and the engine runs: validation lower-cases names before comparing. -/
theorem claim4_counterexample :
    main_config_phase { SystemConfig.default with scheduler_name := "FIFO" } =
        Except.ok () ∧
      "FIFO" ∉ ["fifo", "look", "nlook"] := by
  exact ⟨by decide, by decide⟩

/-- C5 counterexample: submit requests for sector 5 and then sector 3
with `sectors_per_track = 10` (both on track 0) and the head at track 0:
`get_next_request` returns the request for sector 5, not the
least-sectored candidate 3, because the stable sort orders by track
only and ties keep submission order. -/
theorem claim5_counterexample :
    (((NLOOKScheduler.init 5).add_request ⟨0, 5⟩ |>.add_request ⟨1, 3⟩
        |>.get_next_request 0 10).2 = some ⟨0, 5⟩) ∧
      NReq.get_track ⟨1, 3⟩ 10 = 0 ∧ NReq.get_track ⟨0, 5⟩ 10 = 0 ∧
      (3 : Nat) < 5 := by
  decide

/-- C4, as amended: a scheduler name whose Python-lowercased form is
outside `{fifo, look, nlook}` or a scenario name whose lowercased form is
outside `{default, sequential, random, cache-test}` is rejected with a
user-visible ValueError before the engine runs — but the rejection of
`flook` comes from `create_scheduler` (validate_config itself admits it),
the scenario names are checked only by `create_scenario`, and matching is
case-insensitive, so upper-case spellings of the valid names are
accepted. -/
theorem claim4_amended (sname scname : String) :
    main_config_phase { SystemConfig.default with
        scheduler_name := sname, scenario_name := scname } = Except.ok () ↔
      (pyLower sname ∈ ["fifo", "look", "nlook"] ∧
       pyLower scname ∈ ["default", "sequential", "random", "cache-test"]) := by
  have hv : validate_config { SystemConfig.default with
      scheduler_name := sname, scenario_name := scname } =
      (if pyLower sname ∈ valid_schedulers then Except.ok ()
       else Except.error "unknown scheduling algorithm") := by
    simp only [validate_config, SystemConfig.default]
    norm_num
  simp only [main_config_phase, hv, bind, Except.bind, create_scheduler,
    create_scenario, valid_schedulers]
  by_cases h1 : pyLower sname = "fifo" <;>
    by_cases h2 : pyLower sname = "look" <;>
    by_cases h3 : pyLower sname = "nlook" <;>
    by_cases h4 : pyLower sname = "flook" <;>
    by_cases g1 : pyLower scname = "default" <;>
    by_cases g2 : pyLower scname = "sequential" <;>
    by_cases g3 : pyLower scname = "random" <;>
    by_cases g4 : pyLower scname = "cache-test" <;>
    simp [h1, h2, h3, h4, g1, g2, g3, g4]

/-- C6: for head and target tracks inside the geometry,
`calculate_seek_time` returns the minimum of the three candidate path
costs — direct `|target-current| * seek_time_per_track`, via track 0
`seek_time_to_edge + (|current| + |target|) * seek_time_per_track`, and
via the last track `seek_time_to_edge + (|current-last| + |target-last|)
* seek_time_per_track` — and on ties the branch priority is direct over
via-track-0 over via-last-track, as witnessed by the returned route
descriptor. -/
theorem claim6_seek_minimum (d : HardDisk) (t : Int)
    (hc0 : 0 ≤ d.current_track) (hc1 : d.current_track < d.num_tracks)
    (ht0 : 0 ≤ t) (ht1 : t < d.num_tracks) :
    (d.calculate_seek_time t).1 =
      min ((|t - d.current_track| : ℚ) * d.seek_time_per_track)
        (min (d.seek_time_to_edge +
            ((|d.current_track| + |t| : Int) : ℚ) * d.seek_time_per_track)
          (d.seek_time_to_edge +
            ((|d.current_track - (d.num_tracks - 1)| +
              |t - (d.num_tracks - 1)| : Int) : ℚ) * d.seek_time_per_track)) ∧
    (d.direct_time t ≤ d.time_via_start t ∧ d.direct_time t ≤ d.time_via_end t →
      d.calculate_seek_time t =
        (d.direct_time t, "direct " ++ toString (d.direct_tracks t) ++ " tracks")) ∧
    (¬ (d.direct_time t ≤ d.time_via_start t ∧ d.direct_time t ≤ d.time_via_end t) →
      d.time_via_start t ≤ d.time_via_end t →
      d.calculate_seek_time t =
        (d.time_via_start t,
          "via track 0 (" ++ toString (d.via_start_tracks t) ++ " tracks)")) ∧
    (¬ (d.direct_time t ≤ d.time_via_start t ∧ d.direct_time t ≤ d.time_via_end t) →
      ¬ d.time_via_start t ≤ d.time_via_end t →
      d.calculate_seek_time t =
        (d.time_via_end t,
          "via track " ++ toString (d.num_tracks - 1) ++ " (" ++
            toString (d.via_end_tracks t) ++ " tracks)")) := by
  refine ⟨?_, ?_, ?_, ?_⟩
  · have h1 : d.direct_time t = (|t - d.current_track| : ℚ) * d.seek_time_per_track := by
      simp [HardDisk.direct_time, HardDisk.direct_tracks]
    have h2 : d.time_via_start t = d.seek_time_to_edge +
        ((|d.current_track| + |t| : Int) : ℚ) * d.seek_time_per_track := by
      simp [HardDisk.time_via_start, HardDisk.via_start_tracks]
    have h3 : d.time_via_end t = d.seek_time_to_edge +
        ((|d.current_track - (d.num_tracks - 1)| +
          |t - (d.num_tracks - 1)| : Int) : ℚ) * d.seek_time_per_track := by
      simp [HardDisk.time_via_end, HardDisk.via_end_tracks]
    rw [← h1, ← h2, ← h3]
    unfold HardDisk.calculate_seek_time
    split_ifs with ha hb <;> simp only [min_def] <;> split_ifs <;>
      first
        | rfl
        | (exfalso; rcases not_and_or.mp ha with h | h <;> push_neg at h <;> linarith)
        | linarith
  · intro h; unfold HardDisk.calculate_seek_time; rw [if_pos h]
  · intro h h2; unfold HardDisk.calculate_seek_time; rw [if_neg h, if_pos h2]
  · intro h h2; unfold HardDisk.calculate_seek_time; rw [if_neg h, if_neg h2]

/-- C10: the seek time returned by `calculate_seek_time` for target `b`
with the head at `a` equals the one returned for target `a` with the
head at `b`: each of the three candidate costs is symmetric in the two
tracks, so the same branch is taken with the same value. -/
theorem claim10_seek_symmetry (d : HardDisk) (a b : Int)
    (ha0 : 0 ≤ a) (ha1 : a < d.num_tracks) (hb0 : 0 ≤ b) (hb1 : b < d.num_tracks) :
    (({ d with current_track := a } : HardDisk).calculate_seek_time b).1 =
      (({ d with current_track := b } : HardDisk).calculate_seek_time a).1 := by
  have e1 : ({ d with current_track := a } : HardDisk).direct_time b =
      ({ d with current_track := b } : HardDisk).direct_time a := by
    simp [HardDisk.direct_time, HardDisk.direct_tracks, abs_sub_comm]
  have e2 : ({ d with current_track := a } : HardDisk).time_via_start b =
      ({ d with current_track := b } : HardDisk).time_via_start a := by
    simp [HardDisk.time_via_start, HardDisk.via_start_tracks, add_comm]
  have e3 : ({ d with current_track := a } : HardDisk).time_via_end b =
      ({ d with current_track := b } : HardDisk).time_via_end a := by
    simp [HardDisk.time_via_end, HardDisk.via_end_tracks, add_comm]
  unfold HardDisk.calculate_seek_time
  rw [e1, e2, e3]
  split_ifs <;> rfl

theorem add_to_right_inv (c : BufferCacheLRU2Q) (b : Nat) (c2 : BufferCacheLRU2Q)
    (hbl : b ∉ c.left_segment) (hbr : b ∉ c.right_segment)
    (hnd : (c.left_segment ++ c.right_segment).Nodup)
    (hr : c.right_segment.length ≤ c.max_right_segment)
    (h : c.add_to_right_segment b = some c2) :
    c2.left_segment.length + c2.right_segment.length =
      c.left_segment.length + c.right_segment.length + 1 ∧
    c2.right_segment.length ≤ c.max_right_segment ∧
    (c2.left_segment ++ c2.right_segment).Nodup ∧
    (∀ x : Nat, x ∈ c2.left_segment ∨ x ∈ c2.right_segment ↔
      x = b ∨ x ∈ c.left_segment ∨ x ∈ c.right_segment) ∧
    c2.total_buffers = c.total_buffers ∧
    c2.max_right_segment = c.max_right_segment ∧
    c2.sector_to_buffer = c.sector_to_buffer := by
  rw [List.nodup_append] at hnd
  obtain ⟨hndL, hndR, hdisj⟩ := hnd
  unfold BufferCacheLRU2Q.add_to_right_segment at h
  by_cases hfull : c.right_segment.length ≥ c.max_right_segment
  · rw [if_pos hfull] at h
    cases hR : c.right_segment.getLast? with
    | none => rw [hR] at h; exact absurd h (by simp)
    | some moved =>
      rw [hR] at h
      injection h with h
      subst h
      have hsplit : c.right_segment.dropLast ++ [moved] = c.right_segment :=
        List.dropLast_append_getLast? moved hR
      have hmovedR : moved ∈ c.right_segment := by
        rw [← hsplit]; simp
      have hndR2 : c.right_segment.dropLast.Nodup ∧ moved ∉ c.right_segment.dropLast := by
        rw [← hsplit, List.nodup_append] at hndR
        exact ⟨hndR.1, fun hm => hndR.2.2 hm (by simp)⟩
      have hlen : c.right_segment.dropLast.length + 1 = c.right_segment.length := by
        rw [← hsplit]; simp
      refine ⟨by simp; omega, by simp; omega, ?_, ?_, rfl, rfl, rfl⟩
      · rw [List.nodup_append]
        refine ⟨List.nodup_cons.mpr ⟨fun hm => hdisj hm hmovedR, hndL⟩,
          List.nodup_cons.mpr ⟨fun hm => hbr (List.dropLast_subset _ hm), hndR2.1⟩,
          fun x hx hmem => ?_⟩
        rcases List.mem_cons.mp hmem with rfl | h2
        · rcases List.mem_cons.mp hx with rfl | h3
          · exact hbr hmovedR
          · exact hbl h3
        · rcases List.mem_cons.mp hx with rfl | h3
          · exact hndR2.2 h2
          · exact hdisj h3 (List.dropLast_subset _ h2)
      · intro x
        constructor
        · rintro (hx | hx)
          · rcases List.mem_cons.mp hx with rfl | h2
            · exact Or.inr (Or.inr hmovedR)
            · exact Or.inr (Or.inl h2)
          · rcases List.mem_cons.mp hx with rfl | h2
            · exact Or.inl rfl
            · exact Or.inr (Or.inr (List.dropLast_subset _ h2))
        · rintro (rfl | hx | hx)
          · exact Or.inr (List.mem_cons_self _ _)
          · exact Or.inl (List.mem_cons_of_mem _ hx)
          · rw [← hsplit] at hx
            rcases List.mem_append.mp hx with h2 | h2
            · exact Or.inr (List.mem_cons_of_mem _ h2)
            · simp only [List.mem_singleton] at h2
              subst h2
              exact Or.inl (List.mem_cons_self _ _)
  · rw [if_neg hfull] at h
    injection h with h
    subst h
    refine ⟨by simp; omega, by simp; omega, ?_, ?_, rfl, rfl, rfl⟩
    · rw [List.nodup_append]
      refine ⟨hndL, List.nodup_cons.mpr ⟨hbr, hndR⟩, fun x hx hmem => ?_⟩
      rcases List.mem_cons.mp hmem with rfl | h2
      · exact hbl hx
      · exact hdisj hx h2
    · intro x
      simp only [List.mem_cons]
      tauto

theorem access_buffer_inv (c : BufferCacheLRU2Q) (sector : Nat)
    (c1 : BufferCacheLRU2Q) (m : Bool) (hInv : c.Inv)
    (h : c.access_buffer sector = some (c1, m)) :
    c1.Inv ∧ c1.total_buffers = c.total_buffers ∧
      c1.max_right_segment = c.max_right_segment := by
  obtain ⟨hr, htot, hnd, hndD, hmemD⟩ := hInv
  have hndL : c.left_segment.Nodup := (List.nodup_append.mp hnd).1
  have hndR : c.right_segment.Nodup := (List.nodup_append.mp hnd).2.1
  have hdisj : ∀ x : Nat, x ∈ c.left_segment → x ∉ c.right_segment :=
    fun x hx => (List.nodup_append.mp hnd).2.2 hx
  unfold BufferCacheLRU2Q.access_buffer BufferCacheLRU2Q.find_buffer at h
  by_cases hdict : sector ∈ c.sector_to_buffer
  · -- hit path
    rw [if_pos hdict] at h
    simp only [] at h
    have hLR := (hmemD sector).mp hdict
    by_cases hL : sector ∈ c.left_segment
    · simp only [if_pos hL] at h
      cases hadd : BufferCacheLRU2Q.add_to_right_segment
          { c with left_segment := c.left_segment.erase sector } sector with
      | none => rw [hadd] at h; exact absurd h (by simp)
      | some c2 =>
        rw [hadd] at h
        injection h with h
        rw [Prod.mk.injEq] at h
        obtain ⟨rfl, rfl⟩ := h
        have key := add_to_right_inv
          { c with left_segment := c.left_segment.erase sector } sector c2
          (hndL.not_mem_erase)
          (hdisj sector hL)
          (by
            rw [List.nodup_append]
            refine ⟨hndL.erase sector, hndR, fun x hx => ?_⟩
            exact hdisj x (List.erase_subset _ _ hx))
          hr hadd
        obtain ⟨klen, kr, knd, kmem, ktot, kmr, kdict⟩ := key
        dsimp only at klen kr ktot kmr kdict
        have hLlen : (c.left_segment.erase sector).length + 1 = c.left_segment.length := by
          rw [List.length_erase_of_mem hL]
          have := List.length_pos.mpr (List.ne_nil_of_mem hL)
          omega
        refine ⟨⟨by rw [kmr]; exact kr, ?_, knd, ?_, ?_⟩, ktot, kmr⟩
        · rw [ktot]
          omega
        · rw [kdict]; exact hndD
        · intro x
          rw [kdict]
          rw [kmem x]
          rw [hndL.mem_erase_iff]
          constructor
          · intro hx
            rcases (hmemD x).mp hx with h2 | h2
            · by_cases hxs : x = sector
              · exact Or.inl hxs
              · exact Or.inr (Or.inl ⟨hxs, h2⟩)
            · exact Or.inr (Or.inr h2)
          · rintro (rfl | ⟨hne, h2⟩ | h2)
            · exact hdict
            · exact (hmemD x).mpr (Or.inl h2)
            · exact (hmemD x).mpr (Or.inr h2)
    · have hR2 : sector ∈ c.right_segment := by tauto
      simp only [if_neg hL, if_pos hR2] at h
      cases hadd : BufferCacheLRU2Q.add_to_right_segment
          { c with right_segment := c.right_segment.erase sector } sector with
      | none => rw [hadd] at h; exact absurd h (by simp)
      | some c2 =>
        rw [hadd] at h
        injection h with h
        rw [Prod.mk.injEq] at h
        obtain ⟨rfl, rfl⟩ := h
        have key := add_to_right_inv
          { c with right_segment := c.right_segment.erase sector } sector c2
          hL
          (hndR.not_mem_erase)
          (by
            rw [List.nodup_append]
            refine ⟨hndL, hndR.erase sector, fun x hx h2 => ?_⟩
            exact hdisj x hx (List.erase_subset _ _ h2))
          (le_trans (List.erase_sublist _ _).length_le hr) hadd
        obtain ⟨klen, kr, knd, kmem, ktot, kmr, kdict⟩ := key
        dsimp only at klen kr ktot kmr kdict
        have hRlen : (c.right_segment.erase sector).length + 1 = c.right_segment.length := by
          rw [List.length_erase_of_mem hR2]
          have := List.length_pos.mpr (List.ne_nil_of_mem hR2)
          omega
        refine ⟨⟨?_, ?_, knd, ?_, ?_⟩, ktot, kmr⟩
        · rw [kmr]
          omega
        · rw [ktot]
          omega
        · rw [kdict]; exact hndD
        · intro x
          rw [kdict, kmem x, hndR.mem_erase_iff]
          constructor
          · intro hx
            rcases (hmemD x).mp hx with h2 | h2
            · exact Or.inr (Or.inl h2)
            · by_cases hxs : x = sector
              · exact Or.inl hxs
              · exact Or.inr (Or.inr ⟨hxs, h2⟩)
          · rintro (rfl | h2 | ⟨hne, h2⟩)
            · exact hdict
            · exact (hmemD x).mpr (Or.inl h2)
            · exact (hmemD x).mpr (Or.inr h2)
  · -- miss path
    rw [if_neg hdict] at h
    have hsL : sector ∉ c.left_segment := fun h2 => hdict ((hmemD sector).mpr (Or.inl h2))
    have hsR : sector ∉ c.right_segment := fun h2 => hdict ((hmemD sector).mpr (Or.inr h2))
    by_cases hspace : c.left_segment.length + c.right_segment.length < c.total_buffers
    · rw [if_pos hspace] at h
      injection h with h
      rw [Prod.mk.injEq] at h
      obtain ⟨rfl, rfl⟩ := h
      refine ⟨⟨hr, by simp; omega, ?_, List.nodup_cons.mpr ⟨hdict, hndD⟩, ?_⟩, rfl, rfl⟩
      · rw [List.cons_append, List.nodup_cons]
        exact ⟨by simp; tauto, hnd⟩
      · intro x
        simp only [List.mem_cons]
        constructor
        · rintro (rfl | h2)
          · exact Or.inl (Or.inl rfl)
          · rcases (hmemD x).mp h2 with h3 | h3
            · exact Or.inl (Or.inr h3)
            · exact Or.inr h3
        · rintro ((rfl | h2) | h2)
          · exact Or.inl rfl
          · exact Or.inr ((hmemD x).mpr (Or.inl h2))
          · exact Or.inr ((hmemD x).mpr (Or.inr h2))
    · rw [if_neg hspace] at h
      cases hevL : c.left_segment.getLast? with
      | some ev =>
        rw [hevL] at h
        injection h with h
        rw [Prod.mk.injEq] at h
        obtain ⟨rfl, rfl⟩ := h
        have hsplitL : c.left_segment.dropLast ++ [ev] = c.left_segment :=
          List.dropLast_append_getLast? ev hevL
        have hevmem : ev ∈ c.left_segment := by rw [← hsplitL]; simp
        have hevdict : ev ∈ c.sector_to_buffer := (hmemD ev).mpr (Or.inl hevmem)
        have hndDL : c.left_segment.dropLast.Nodup ∧ ev ∉ c.left_segment.dropLast := by
          rw [← hsplitL, List.nodup_append] at hndL
          exact ⟨hndL.1, fun hm => hndL.2.2 hm (by simp)⟩
        have hlenL : c.left_segment.dropLast.length + 1 = c.left_segment.length := by
          rw [← hsplitL]; simp
        have hmemdrop : ∀ x : Nat, x ∈ c.left_segment ↔
            x ∈ c.left_segment.dropLast ∨ x = ev := by
          intro x
          rw [← hsplitL]
          simp
        refine ⟨⟨hr, by simp only [List.length_cons]; omega, ?_, ?_, ?_⟩, rfl, rfl⟩
        · rw [List.cons_append, List.nodup_cons, List.nodup_append]
          refine ⟨?_, hndDL.1, hndR, fun x hx => hdisj x (List.dropLast_subset _ hx)⟩
          simp only [List.mem_append]
          rintro (h2 | h2)
          · exact hsL (List.dropLast_subset _ h2)
          · exact hsR h2
        · exact List.nodup_cons.mpr
            ⟨fun h2 => hdict (List.erase_subset _ _ h2), hndD.erase ev⟩
        · intro x
          simp only [List.mem_cons, hndD.mem_erase_iff]
          constructor
          · rintro (rfl | ⟨hne, h2⟩)
            · exact Or.inl (Or.inl rfl)
            · rcases (hmemD x).mp h2 with h3 | h3
              · rcases (hmemdrop x).mp h3 with h4 | rfl
                · exact Or.inl (Or.inr h4)
                · exact absurd rfl hne
              · exact Or.inr h3
          · rintro ((rfl | h2) | h2)
            · exact Or.inl rfl
            · refine Or.inr ⟨fun he => hndDL.2 (he ▸ h2), ?_⟩
              exact (hmemD x).mpr (Or.inl (List.dropLast_subset _ h2))
            · refine Or.inr ⟨fun he => hdisj ev hevmem (he ▸ h2), ?_⟩
              exact (hmemD x).mpr (Or.inr h2)
      | none =>
        rw [hevL] at h
        have hLnil : c.left_segment = [] := List.getLast?_eq_none_iff.mp hevL
        cases hevR : c.right_segment.getLast? with
        | none => rw [hevR] at h; exact absurd h (by simp)
        | some ev =>
          rw [hevR] at h
          injection h with h
          rw [Prod.mk.injEq] at h
          obtain ⟨rfl, rfl⟩ := h
          have hsplitR : c.right_segment.dropLast ++ [ev] = c.right_segment :=
            List.dropLast_append_getLast? ev hevR
          have hevmem : ev ∈ c.right_segment := by rw [← hsplitR]; simp
          have hndDR : c.right_segment.dropLast.Nodup ∧ ev ∉ c.right_segment.dropLast := by
            rw [← hsplitR, List.nodup_append] at hndR
            exact ⟨hndR.1, fun hm => hndR.2.2 hm (by simp)⟩
          have hlenR : c.right_segment.dropLast.length + 1 = c.right_segment.length := by
            rw [← hsplitR]; simp
          have hmemdrop : ∀ x : Nat, x ∈ c.right_segment ↔
              x ∈ c.right_segment.dropLast ∨ x = ev := by
            intro x
            rw [← hsplitR]
            simp
          refine ⟨⟨?_, ?_, ?_, ?_, ?_⟩, rfl, rfl⟩
          · simp only [] at hr ⊢
            omega
          · simp only [List.length_singleton, hLnil, List.length_nil] at htot ⊢
            omega
          · rw [List.singleton_append, List.nodup_cons]
            exact ⟨fun h2 => hsR (List.dropLast_subset _ h2), hndDR.1⟩
          · exact List.nodup_cons.mpr
              ⟨fun h2 => hdict (List.erase_subset _ _ h2), hndD.erase ev⟩
          · intro x
            simp only [List.mem_cons, List.not_mem_nil, or_false, hndD.mem_erase_iff]
            constructor
            · rintro (rfl | ⟨hne, h2⟩)
              · exact Or.inl rfl
              · rcases (hmemD x).mp h2 with h3 | h3
                · rw [hLnil] at h3; simp at h3
                · rcases (hmemdrop x).mp h3 with h4 | rfl
                  · exact Or.inr h4
                  · exact absurd rfl hne
            · rintro (rfl | h2)
              · exact Or.inl rfl
              · refine Or.inr ⟨fun he => hndDR.2 (he ▸ h2), ?_⟩
                exact (hmemD x).mpr (Or.inr (List.dropLast_subset _ h2))

theorem init_inv (tb mr : Nat) : (BufferCacheLRU2Q.init tb mr).Inv := by
  refine ⟨by simp [BufferCacheLRU2Q.init], by simp [BufferCacheLRU2Q.init],
    by simp [BufferCacheLRU2Q.init], by simp [BufferCacheLRU2Q.init],
    by simp [BufferCacheLRU2Q.init]⟩

theorem runAccesses_inv (l : List Nat) (c c1 : BufferCacheLRU2Q) (hInv : c.Inv)
    (h : BufferCacheLRU2Q.runAccesses l c = some c1) :
    c1.Inv ∧ c1.total_buffers = c.total_buffers ∧
      c1.max_right_segment = c.max_right_segment := by
  induction l generalizing c with
  | nil =>
    unfold BufferCacheLRU2Q.runAccesses at h
    injection h with h
    subst h
    exact ⟨hInv, rfl, rfl⟩
  | cons s rest ih =>
    unfold BufferCacheLRU2Q.runAccesses at h
    cases hacc : c.access_buffer s with
    | none => rw [hacc] at h; exact absurd h (by simp)
    | some p =>
      rw [hacc] at h
      obtain ⟨step, htot, hmr⟩ := access_buffer_inv c s p.1 p.2 hInv hacc
      obtain ⟨k1, k2, k3⟩ := ih p.1 step h
      exact ⟨k1, k2.trans htot, k3.trans hmr⟩

/-- C7: starting from an empty cache with
`max_right_segment < total_buffers`, after every completed
`access_buffer` call the right segment holds at most `max_right_segment`
buffers and both segments together hold at most `total_buffers`
buffers. -/
theorem claim7_cache_bounds (tb mr : Nat) (hcap : mr < tb) (l : List Nat)
    (c1 : BufferCacheLRU2Q)
    (h : BufferCacheLRU2Q.runAccesses l (BufferCacheLRU2Q.init tb mr) = some c1) :
    c1.right_segment.length ≤ mr ∧
      c1.left_segment.length + c1.right_segment.length ≤ tb := by
  obtain ⟨⟨h1, h2, _⟩, htot, hmr⟩ := runAccesses_inv l _ c1 (init_inv tb mr) h
  have e1 : c1.max_right_segment = mr := hmr
  have e2 : c1.total_buffers = tb := htot
  rw [← e1, ← e2]
  exact ⟨h1, h2⟩

theorem claim7_witness :
    1 < 2 ∧
      ((⟨2, 1, [], [100], [100]⟩ : BufferCacheLRU2Q).right_segment.length ≤ 1 ∧
        (⟨2, 1, [], [100], [100]⟩ : BufferCacheLRU2Q).left_segment.length +
          (⟨2, 1, [], [100], [100]⟩ : BufferCacheLRU2Q).right_segment.length ≤ 2) :=
  ⟨by decide,
   claim7_cache_bounds 2 1 (by decide) [100, 100, 100] ⟨2, 1, [], [100], [100]⟩
     (by decide)⟩

/-- C8: on a cache miss, if the segments together hold fewer than
`total_buffers` buffers a fresh buffer is allocated; otherwise the last
element of the left segment — or of the right segment when the left one
is empty — is evicted, the evicted sector is deleted from the index, and
the new buffer is inserted at the front of the left segment and into the
index. -/
theorem claim8_miss_behaviour (c : BufferCacheLRU2Q) (sector : Nat)
    (hmiss : sector ∉ c.sector_to_buffer) :
    (c.left_segment.length + c.right_segment.length < c.total_buffers →
      c.access_buffer sector =
        some ({ c with left_segment := sector :: c.left_segment,
                       sector_to_buffer := sector :: c.sector_to_buffer }, true)) ∧
    (¬ c.left_segment.length + c.right_segment.length < c.total_buffers →
      ∀ ev, c.left_segment.getLast? = some ev →
        c.access_buffer sector =
          some ({ c with left_segment := sector :: c.left_segment.dropLast,
                         sector_to_buffer :=
                           sector :: c.sector_to_buffer.erase ev }, true)) ∧
    (¬ c.left_segment.length + c.right_segment.length < c.total_buffers →
      c.left_segment = [] →
      ∀ ev, c.right_segment.getLast? = some ev →
        c.access_buffer sector =
          some ({ c with left_segment := [sector],
                         right_segment := c.right_segment.dropLast,
                         sector_to_buffer :=
                           sector :: c.sector_to_buffer.erase ev }, true)) := by
  unfold BufferCacheLRU2Q.access_buffer BufferCacheLRU2Q.find_buffer
  rw [if_neg hmiss]
  refine ⟨fun hs => ?_, fun hs ev hev => ?_, fun hs hnil ev hev => ?_⟩
  · rw [if_pos hs]
  · rw [if_neg hs, hev]
  · rw [if_neg hs]
    have h0 : c.left_segment.getLast? = none := by rw [hnil]; rfl
    rw [h0, hev]

theorem claim8_witness :
    (9 ∉ ([7, 8] : List Nat)) ∧
      BufferCacheLRU2Q.access_buffer ⟨2, 1, [7], [8], [7, 8]⟩ 9 =
        some ({ (⟨2, 1, [7], [8], [7, 8]⟩ : BufferCacheLRU2Q) with
                  left_segment := 9 :: ([7] : List Nat).dropLast,
                  sector_to_buffer := 9 :: ([7, 8] : List Nat).erase 7 }, true) :=
  ⟨by decide,
   (claim8_miss_behaviour ⟨2, 1, [7], [8], [7, 8]⟩ 9 (by decide)).2.1
     (by decide) 7 rfl⟩

theorem mem_sortedInsert (spt : Nat) (x y : NReq) (l : List NReq) :
    y ∈ sortedInsert spt x l ↔ y = x ∨ y ∈ l := by
  induction l with
  | nil => simp [sortedInsert]
  | cons a l ih =>
    unfold sortedInsert
    by_cases hc : a.get_track spt < x.get_track spt
    · rw [if_pos hc]
      simp only [List.mem_cons, ih]
      tauto
    · rw [if_neg hc]
      simp only [List.mem_cons]

theorem mem_sortByTrack (spt : Nat) (y : NReq) (l : List NReq) :
    y ∈ sortByTrack spt l ↔ y ∈ l := by
  induction l with
  | nil => simp [sortByTrack]
  | cons a l ih =>
    show y ∈ sortedInsert spt a (sortByTrack spt l) ↔ _
    rw [mem_sortedInsert]
    simp only [List.mem_cons, ih]

theorem sorted_sortedInsert (spt : Nat) (x : NReq) (l : List NReq)
    (h : l.Pairwise (fun a b => a.get_track spt ≤ b.get_track spt)) :
    (sortedInsert spt x l).Pairwise (fun a b => a.get_track spt ≤ b.get_track spt) := by
  induction l with
  | nil => simp [sortedInsert]
  | cons a l ih =>
    rw [List.pairwise_cons] at h
    unfold sortedInsert
    by_cases hc : a.get_track spt < x.get_track spt
    · rw [if_pos hc]
      rw [List.pairwise_cons]
      refine ⟨fun b hb => ?_, ih h.2⟩
      rcases (mem_sortedInsert spt x b l).mp hb with rfl | hb2
      · exact le_of_lt hc
      · exact h.1 b hb2
    · rw [if_neg hc]
      rw [List.pairwise_cons]
      refine ⟨fun b hb => ?_, List.pairwise_cons.mpr h⟩
      rcases List.mem_cons.mp hb with rfl | hb2
      · exact le_of_not_lt hc
      · exact le_trans (le_of_not_lt hc) (h.1 b hb2)

theorem sorted_sortByTrack (spt : Nat) (l : List NReq) :
    (sortByTrack spt l).Pairwise (fun a b => a.get_track spt ≤ b.get_track spt) := by
  induction l with
  | nil => simp [sortByTrack]
  | cons a l ih => exact sorted_sortedInsert spt a (sortByTrack spt l) ih

theorem find?_min_track (spt ct : Nat) (l : List NReq) (r : NReq)
    (hs : l.Pairwise (fun a b => a.get_track spt ≤ b.get_track spt))
    (h : l.find? (fun q => ct ≤ q.get_track spt) = some r) :
    (ct ≤ r.get_track spt) ∧
      ∀ x ∈ l, ct ≤ x.get_track spt → r.get_track spt ≤ x.get_track spt := by
  induction l with
  | nil => simp [List.find?] at h
  | cons a l ih =>
    rw [List.pairwise_cons] at hs
    rw [List.find?_cons] at h
    by_cases hc : ct ≤ a.get_track spt
    · have hd : decide (ct ≤ a.get_track spt) = true := by simpa using hc
      simp only [hd] at h
      injection h with h
      subst h
      refine ⟨hc, fun x hx _ => ?_⟩
      rcases List.mem_cons.mp hx with rfl | hx2
      · exact le_refl _
      · exact hs.1 x hx2
    · have hd : decide (ct ≤ a.get_track spt) = false := by simpa using hc
      simp only [hd] at h
      obtain ⟨h1, h2⟩ := ih hs.2 h
      refine ⟨h1, fun x hx hcx => ?_⟩
      rcases List.mem_cons.mp hx with rfl | hx2
      · exact absurd hcx hc
      · exact h2 x hx2 hcx

theorem head?_min_track (spt : Nat) (l : List NReq) (r : NReq)
    (hs : l.Pairwise (fun a b => a.get_track spt ≤ b.get_track spt))
    (h : l.head? = some r) :
    ∀ x ∈ l, r.get_track spt ≤ x.get_track spt := by
  cases l with
  | nil => simp at h
  | cons a l =>
    injection h with h
    subst h
    rw [List.pairwise_cons] at hs
    intro x hx
    rcases List.mem_cons.mp hx with rfl | hx2
    · exact le_refl _
    · exact hs.1 x hx2

theorem find?_sortedInsert_of_neg (spt : Nat) (a : NReq) (s : List NReq)
    (p : NReq → Bool) (hp : p a = false) :
    (sortedInsert spt a s).find? p = s.find? p := by
  induction s with
  | nil => simp [sortedInsert, List.find?_cons, hp]
  | cons y ys ih =>
    unfold sortedInsert
    by_cases hc : y.get_track spt < a.get_track spt
    · rw [if_pos hc]
      rw [List.find?_cons, List.find?_cons]
      cases hpy : p y with
      | true => simp [hpy]
      | false => simp [hpy, ih]
    · rw [if_neg hc]
      rw [List.find?_cons]
      simp [hp]

theorem find?_sortedInsert_track (spt t : Nat) (a : NReq) (s : List NReq)
    (h : a.get_track spt = t) :
    (sortedInsert spt a s).find? (fun x => x.get_track spt = t) = some a := by
  induction s with
  | nil => simp [sortedInsert, List.find?_cons, h]
  | cons y ys ih =>
    unfold sortedInsert
    by_cases hc : y.get_track spt < a.get_track spt
    · rw [if_pos hc]
      have hy : decide (y.get_track spt = t) = false := by
        subst h
        simp [Nat.ne_of_lt hc]
      rw [List.find?_cons, hy]
      exact ih
    · rw [if_neg hc]
      rw [List.find?_cons]
      simp [h]

theorem find?_track_sortByTrack (spt t : Nat) (l : List NReq) :
    (sortByTrack spt l).find? (fun x => x.get_track spt = t) =
      l.find? (fun x => x.get_track spt = t) := by
  induction l with
  | nil => rfl
  | cons a l ih =>
    show (sortedInsert spt a (sortByTrack spt l)).find? _ = _
    by_cases h : a.get_track spt = t
    · rw [find?_sortedInsert_track spt t a _ h, List.find?_cons]
      simp [h]
    · rw [find?_sortedInsert_of_neg spt a _ _ (by simpa using h), ih,
        List.find?_cons]
      simp [h]

theorem find?_track_of_find?_le (spt ct : Nat) (s : List NReq) (r : NReq)
    (h : s.find? (fun q => ct ≤ q.get_track spt) = some r) :
    s.find? (fun x => x.get_track spt = r.get_track spt) = some r := by
  induction s with
  | nil => simp [List.find?] at h
  | cons a s ih =>
    rw [List.find?_cons] at h
    by_cases hc : ct ≤ a.get_track spt
    · have hd : decide (ct ≤ a.get_track spt) = true := by simpa using hc
      simp only [hd] at h
      injection h with h
      subst h
      simp [List.find?_cons]
    · have hd : decide (ct ≤ a.get_track spt) = false := by simpa using hc
      simp only [hd] at h
      have hr : ct ≤ r.get_track spt := by
        have := List.find?_some h
        simpa using this
      have ha : decide (a.get_track spt = r.get_track spt) = false := by
        simp only [decide_eq_false_iff_not]
        exact fun he => hc (he ▸ hr)
      rw [List.find?_cons, ha]
      exact ih h

theorem find?_track_of_head? (spt : Nat) (s : List NReq) (r : NReq)
    (h : s.head? = some r) :
    s.find? (fun x => x.get_track spt = r.get_track spt) = some r := by
  cases s with
  | nil => simp at h
  | cons a s =>
    injection h with h
    subst h
    simp [List.find?_cons]

/-- C5, as amended: for every non-empty head sub-queue,
`get_next_request` draws from the head sub-queue and selects a request
of minimal track among those with track `≥ current_track`; if no request
of the sub-queue has track `≥ current_track`, it selects a request of
minimal track of that sub-queue.  Selection is by track with same-track
ties broken by submission order, not by sector: the selected request is
the first request of the sub-queue (in submission order) that carries its
track, which is the third conjunct below. -/
theorem claim5_amended (st : NLOOKScheduler) (ct spt : Nat) (tag : Nat)
    (cur : List NReq) (rest : List (Nat × List NReq))
    (hq : st.queues.filter (fun q => ¬ q.2.isEmpty) = (tag, cur) :: rest) :
    ∃ r, (st.get_next_request ct spt).2 = some r ∧ r ∈ cur ∧
      cur.find? (fun x => x.get_track spt = r.get_track spt) = some r ∧
      ((∃ x ∈ cur, ct ≤ x.get_track spt) →
        ct ≤ r.get_track spt ∧
          ∀ x ∈ cur, ct ≤ x.get_track spt → r.get_track spt ≤ x.get_track spt) ∧
      ((∀ x ∈ cur, x.get_track spt < ct) →
        ∀ x ∈ cur, r.get_track spt ≤ x.get_track spt) := by
  have hcur_ne : cur ≠ [] := by
    have hmem : (tag, cur) ∈ st.queues.filter (fun q => ¬ q.2.isEmpty) := by
      rw [hq]; exact List.mem_cons_self _ _
    have := (List.mem_filter.mp hmem).2
    simpa [List.isEmpty_iff] using this
  unfold NLOOKScheduler.get_next_request
  rw [hq]
  cases hfind : (sortByTrack spt cur).find? (fun q => ct ≤ q.get_track spt) with
  | some r =>
    refine ⟨r, ?_, ?_, ?_, ?_, ?_⟩
    · simp only [hfind]
      by_cases he : (cur.erase r).isEmpty <;> simp [he]
    · exact (mem_sortByTrack spt r cur).mp (List.mem_of_find?_eq_some hfind)
    · rw [← find?_track_sortByTrack]
      exact find?_track_of_find?_le spt ct _ r hfind
    · intro _
      obtain ⟨h1, h2⟩ := find?_min_track spt ct _ r (sorted_sortByTrack spt cur) hfind
      exact ⟨h1, fun x hx hcx => h2 x ((mem_sortByTrack spt x cur).mpr hx) hcx⟩
    · intro hall
      have hr := (mem_sortByTrack spt r cur).mp (List.mem_of_find?_eq_some hfind)
      have := List.find?_some hfind
      simp only [decide_eq_true_eq] at this
      exact absurd this (not_le_of_lt (hall r hr))
  | none =>
    cases hhead : (sortByTrack spt cur).head? with
    | none =>
      exfalso
      have : sortByTrack spt cur = [] := List.head?_eq_none_iff.mp hhead
      cases hc : cur with
      | nil => exact hcur_ne hc
      | cons a l =>
        have : a ∈ sortByTrack spt cur := (mem_sortByTrack spt a cur).mpr (by rw [hc]; simp)
        rw [List.head?_eq_none_iff.mp hhead] at this
        simp at this
    | some r =>
      refine ⟨r, ?_, ?_, ?_, ?_, ?_⟩
      · simp only [hfind, hhead]
        by_cases he : (cur.erase r).isEmpty <;> simp [he]
      · exact (mem_sortByTrack spt r cur).mp (List.mem_of_mem_head? (by rw [hhead]; rfl))
      · rw [← find?_track_sortByTrack]
        exact find?_track_of_head? spt _ r hhead
      · intro ⟨x, hx, hcx⟩
        exfalso
        have := List.find?_eq_none.mp hfind x ((mem_sortByTrack spt x cur).mpr hx)
        simp only [decide_eq_true_eq] at this
        exact this hcx
      · intro _ x hx
        exact head?_min_track spt _ r (sorted_sortByTrack spt cur) hhead x
          ((mem_sortByTrack spt x cur).mpr hx)

theorem claim5_amended_witness :
    ((NLOOKScheduler.init 5).add_request ⟨0, 5⟩ |>.add_request ⟨1, 3⟩).queues.filter
        (fun q => ¬ q.2.isEmpty) = [(0, [⟨0, 5⟩, ⟨1, 3⟩])] ∧
      (∃ r, (((NLOOKScheduler.init 5).add_request ⟨0, 5⟩ |>.add_request
            ⟨1, 3⟩).get_next_request 0 10).2 = some r ∧
        r ∈ [(⟨0, 5⟩ : NReq), ⟨1, 3⟩] ∧
        ([(⟨0, 5⟩ : NReq), ⟨1, 3⟩].find?
          (fun x => x.get_track 10 = r.get_track 10) = some r) ∧
        ((∃ x ∈ [(⟨0, 5⟩ : NReq), ⟨1, 3⟩], 0 ≤ x.get_track 10) →
          0 ≤ r.get_track 10 ∧
            ∀ x ∈ [(⟨0, 5⟩ : NReq), ⟨1, 3⟩], 0 ≤ x.get_track 10 →
              r.get_track 10 ≤ x.get_track 10) ∧
        ((∀ x ∈ [(⟨0, 5⟩ : NReq), ⟨1, 3⟩], x.get_track 10 < 0) →
          ∀ x ∈ [(⟨0, 5⟩ : NReq), ⟨1, 3⟩], r.get_track 10 ≤ x.get_track 10)) :=
  ⟨by decide,
   claim5_amended _ 0 10 0 [⟨0, 5⟩, ⟨1, 3⟩] [] (by decide)⟩

theorem init_nlook_inv (m : Nat) : (NLOOKScheduler.init m).Inv := by
  constructor <;> simp [NLOOKScheduler.init]

theorem add_request_inv (st : NLOOKScheduler) (r : NReq) (h : st.Inv) :
    (st.add_request r).Inv := by
  obtain ⟨qs, maxl, ser⟩ := st
  obtain ⟨hp, hb⟩ := h
  simp only at hp hb
  cases qs with
  | nil =>
    show (NLOOKScheduler.add_request ⟨[], maxl, ser⟩ r).Inv
    unfold NLOOKScheduler.add_request
    simp only [List.isEmpty_nil, if_true, List.getLast?_singleton]
    by_cases hm : (0 : Nat) ≥ maxl
    · rw [if_pos (by simpa using hm)]
      refine ⟨?_, ?_⟩
      · simp only [List.pairwise_append, List.pairwise_cons]
        refine ⟨by simp, by simp, ?_⟩
        intro a ha b hb2
        simp only [List.mem_singleton] at ha hb2
        subst ha; subst hb2
        simp
      · intro q hq2
        simp only [List.mem_append, List.mem_singleton] at hq2
        rcases hq2 with h2 | h2 <;> subst h2 <;> simp <;> omega
    · rw [if_neg (by simpa using hm)]
      refine ⟨by simp, ?_⟩
      intro q hq2
      simp only [List.dropLast_single, List.nil_append, List.mem_singleton] at hq2
      subst hq2
      simp
  | cons q0 qrest =>
    show (NLOOKScheduler.add_request ⟨q0 :: qrest, maxl, ser⟩ r).Inv
    unfold NLOOKScheduler.add_request
    simp only [List.isEmpty_cons, Bool.false_eq_true, if_false]
    cases hlast : (q0 :: qrest).getLast? with
    | none => simp at hlast
    | some tl =>
      have hsplit : (q0 :: qrest).dropLast ++ [tl] = q0 :: qrest :=
        List.dropLast_append_getLast? tl hlast
      have hpd : (q0 :: qrest).dropLast.Pairwise (fun a b => a.1 < b.1) ∧
          ∀ a ∈ (q0 :: qrest).dropLast, a.1 < tl.1 := by
        rw [← hsplit, List.pairwise_append] at hp
        exact ⟨hp.1, fun a ha => hp.2.2 a ha tl (by simp)⟩
      have htl_mem : tl ∈ q0 :: qrest := by rw [← hsplit]; simp
      have htl_b : tl.1 < ser := hb tl htl_mem
      obtain ⟨tag, lastq⟩ := tl
      dsimp only
      by_cases hfull : lastq.length ≥ maxl
      · rw [if_pos hfull]
        refine ⟨?_, ?_⟩
        · rw [List.pairwise_append]
          refine ⟨hp, by simp, ?_⟩
          intro a ha b hb2
          simp only [List.mem_singleton] at hb2
          subst hb2
          exact hb a ha
        · intro q hq2
          simp only [List.mem_append, List.mem_singleton] at hq2
          rcases hq2 with h2 | h2
          · exact Nat.lt_succ_of_lt (hb q h2)
          · subst h2; simp
      · rw [if_neg hfull]
        refine ⟨?_, ?_⟩
        · rw [List.pairwise_append]
          refine ⟨hpd.1, by simp, ?_⟩
          intro a ha b hb2
          simp only [List.mem_singleton] at hb2
          subst hb2
          exact hpd.2 a ha
        · intro q hq2
          simp only [List.mem_append, List.mem_singleton] at hq2
          rcases hq2 with h2 | h2
          · exact hb q (List.dropLast_subset _ h2)
          · subst h2; exact htl_b

theorem get_next_combined (st : NLOOKScheduler) (ct spt : Nat)
    (st1 : NLOOKScheduler) (ro : Option NReq) (h : st.Inv)
    (hserve : st.get_next_request ct spt = (st1, ro)) :
    st1.Inv ∧
      ∀ r, ro = some r →
        ∃ tag cur rest,
          st.queues.filter (fun q => ¬ q.2.isEmpty) = (tag, cur) :: rest ∧
            r ∈ cur ∧ ∀ q ∈ st1.queues, tag ≤ q.1 := by
  obtain ⟨hp, hb⟩ := h
  have hfp : (st.queues.filter (fun q => ¬ q.2.isEmpty)).Pairwise
      (fun a b => a.1 < b.1) := hp.sublist (List.filter_sublist _)
  have hfb : ∀ q ∈ st.queues.filter (fun q => ¬ q.2.isEmpty),
      q.1 < st.next_queue_serial := fun q hq => hb q (List.mem_of_mem_filter hq)
  unfold NLOOKScheduler.get_next_request at hserve
  cases hf : st.queues.filter (fun q => ¬ q.2.isEmpty) with
  | nil =>
    rw [hf] at hserve
    rw [Prod.mk.injEq] at hserve
    obtain ⟨rfl, rfl⟩ := hserve
    exact ⟨⟨by simp, by simp⟩, fun r hr => absurd hr (by simp)⟩
  | cons hd rest =>
    obtain ⟨tag, cur⟩ := hd
    rw [hf] at hserve
    rw [hf] at hfp hfb
    rw [List.pairwise_cons] at hfp
    have hone : ∀ (r : NReq), r ∈ cur →
        ∀ q1, (q1 = (tag, cur.erase r) ∨ q1 ∈ rest) ∨ q1 ∈ rest → tag ≤ q1.1 := by
      intro r _ q1 hq1
      rcases hq1 with (rfl | h2) | h2
      · exact le_refl _
      · exact le_of_lt (hfp.1 q1 h2)
      · exact le_of_lt (hfp.1 q1 h2)
    cases hfind : (sortByTrack spt cur).find? (fun q => ct ≤ q.get_track spt) with
    | some r =>
      simp only [hfind] at hserve
      have hrcur : r ∈ cur := (mem_sortByTrack spt r cur).mp
        (List.mem_of_find?_eq_some hfind)
      by_cases he : (cur.erase r).isEmpty
      · simp only [he, if_true] at hserve
        rw [Prod.mk.injEq] at hserve
        obtain ⟨rfl, rfl⟩ := hserve
        refine ⟨⟨hfp.2, fun q hq => hfb q (by simp [hq])⟩, fun r2 hr2 => ?_⟩
        injection hr2 with hr2
        subst hr2
        exact ⟨tag, cur, rest, rfl, hrcur,
          fun q hq => le_of_lt (hfp.1 q hq)⟩
      · have he2 : (cur.erase r).isEmpty = false := by simpa using he
        simp only [he2, Bool.false_eq_true, if_false] at hserve
        rw [Prod.mk.injEq] at hserve
        obtain ⟨rfl, rfl⟩ := hserve
        refine ⟨⟨?_, ?_⟩, fun r2 hr2 => ?_⟩
        · rw [List.pairwise_cons]
          exact ⟨hfp.1, hfp.2⟩
        · intro q hq
          rcases List.mem_cons.mp hq with rfl | h2
          · exact hfb (tag, cur) (by simp)
          · exact hfb q (by simp [h2])
        · injection hr2 with hr2
          subst hr2
          refine ⟨tag, cur, rest, rfl, hrcur, fun q hq => ?_⟩
          rcases List.mem_cons.mp hq with rfl | h2
          · exact le_refl _
          · exact le_of_lt (hfp.1 q h2)
    | none =>
      cases hhead : (sortByTrack spt cur).head? with
      | none =>
        simp only [hfind, hhead] at hserve
        rw [Prod.mk.injEq] at hserve
        obtain ⟨rfl, rfl⟩ := hserve
        refine ⟨⟨?_, ?_⟩, fun r2 hr2 => absurd hr2 (by simp)⟩
        · rw [List.pairwise_cons]
          exact ⟨hfp.1, hfp.2⟩
        · intro q hq
          rcases List.mem_cons.mp hq with rfl | h2
          · exact hfb (tag, cur) (by simp)
          · exact hfb q (by simp [h2])
      | some r =>
        simp only [hfind, hhead] at hserve
        have hrcur : r ∈ cur := (mem_sortByTrack spt r cur).mp
          (List.mem_of_mem_head? (by rw [hhead]; rfl))
        by_cases he : (cur.erase r).isEmpty
        · simp only [he, if_true] at hserve
          rw [Prod.mk.injEq] at hserve
          obtain ⟨rfl, rfl⟩ := hserve
          refine ⟨⟨hfp.2, fun q hq => hfb q (by simp [hq])⟩, fun r2 hr2 => ?_⟩
          injection hr2 with hr2
          subst hr2
          exact ⟨tag, cur, rest, rfl, hrcur,
            fun q hq => le_of_lt (hfp.1 q hq)⟩
        · have he2 : (cur.erase r).isEmpty = false := by simpa using he
          simp only [he2, Bool.false_eq_true, if_false] at hserve
          rw [Prod.mk.injEq] at hserve
          obtain ⟨rfl, rfl⟩ := hserve
          refine ⟨⟨?_, ?_⟩, fun r2 hr2 => ?_⟩
          · rw [List.pairwise_cons]
            exact ⟨hfp.1, hfp.2⟩
          · intro q hq
            rcases List.mem_cons.mp hq with rfl | h2
            · exact hfb (tag, cur) (by simp)
            · exact hfb q (by simp [h2])
          · injection hr2 with hr2
            subst hr2
            refine ⟨tag, cur, rest, rfl, hrcur, fun q hq => ?_⟩
            rcases List.mem_cons.mp hq with rfl | h2
            · exact le_refl _
            · exact le_of_lt (hfp.1 q h2)

theorem runCmds_inv (cmds : List NCmd) (st : NLOOKScheduler) (h : st.Inv) :
    (NLOOKScheduler.runCmds cmds st).Inv := by
  induction cmds generalizing st with
  | nil => exact h
  | cons cmd rest ih =>
    cases cmd with
    | add r => exact ih _ (add_request_inv st r h)
    | pick ct spt =>
      exact ih _ (get_next_combined st ct spt _ _ h rfl).1

/-- C9: for every interleaving of `add_request` and `get_next_request`
calls from a fresh scheduler, a served request always comes from the
sub-queue with the smallest creation serial among the non-empty
sub-queues, and every request still pending afterwards lives in a
sub-queue with a serial at least that large: a request submitted to
sub-queue `i` is never still pending when a request of a later sub-queue
is served, i.e. each sub-queue is fully drained before the next one is
drawn from. -/
theorem claim9_epoch_fifo (m : Nat) (cmds : List NCmd) (ct spt : Nat)
    (st1 : NLOOKScheduler) (r : NReq)
    (hserve : (NLOOKScheduler.runCmds cmds
        (NLOOKScheduler.init m)).get_next_request ct spt = (st1, some r)) :
    ∃ tag cur rest,
      (NLOOKScheduler.runCmds cmds (NLOOKScheduler.init m)).queues.filter
          (fun q => ¬ q.2.isEmpty) = (tag, cur) :: rest ∧
        r ∈ cur ∧ ∀ q ∈ st1.queues, tag ≤ q.1 := by
  have hinv := runCmds_inv cmds _ (init_nlook_inv m)
  exact (get_next_combined _ ct spt st1 (some r) hinv hserve).2 r rfl

theorem claim9_witness :
    ∃ tag cur rest,
      (NLOOKScheduler.runCmds [NCmd.add ⟨0, 10⟩, NCmd.add ⟨1, 3⟩, NCmd.add ⟨2, 8⟩]
          (NLOOKScheduler.init 2)).queues.filter (fun q => ¬ q.2.isEmpty) =
        (tag, cur) :: rest ∧
      (⟨1, 3⟩ : NReq) ∈ cur ∧
      ∀ q ∈ (⟨[(0, [⟨0, 10⟩]), (1, [⟨2, 8⟩])], 2, 2⟩ : NLOOKScheduler).queues,
        tag ≤ q.1 :=
  claim9_epoch_fifo 2 [NCmd.add ⟨0, 10⟩, NCmd.add ⟨1, 3⟩, NCmd.add ⟨2, 8⟩] 0 1
    ⟨[(0, [⟨0, 10⟩]), (1, [⟨2, 8⟩])], 2, 2⟩ ⟨1, 3⟩ (by decide)

unseal Rat.add Rat.mul Rat.inv Rat.sub in
/-- Witness for C6 at a concrete disk: 100 tracks, 1 ms per track, 5 ms
to the edge, head at track 90, target track 2. -/
theorem claim6_witness :
    ((0 : Int) ≤ 90 ∧ (90 : Int) < 100 ∧ (0 : Int) ≤ 2 ∧ (2 : Int) < 100) ∧
      (HardDisk.calculate_seek_time ⟨100, 10, 1, 5, 7500, 90⟩ 2).1 =
        min ((|(2 : Int) - 90| : ℚ) * 1)
          (min (5 + ((|(90 : Int)| + |(2 : Int)| : Int) : ℚ) * 1)
            (5 + ((|(90 : Int) - (100 - 1)| + |(2 : Int) - (100 - 1)| : Int) : ℚ) * 1)) :=
  ⟨⟨by decide, by decide, by decide, by decide⟩,
   (claim6_seek_minimum ⟨100, 10, 1, 5, 7500, 90⟩ 2 (by decide) (by decide)
      (by decide) (by decide)).1⟩

/-- Witness for C10 at the same concrete disk, with the head at track 90
versus track 2. -/
theorem claim10_witness :
    ((0 : Int) ≤ 90 ∧ (90 : Int) < 100 ∧ (0 : Int) ≤ 2 ∧ (2 : Int) < 100) ∧
      ((⟨100, 10, 1, 5, 7500, 90⟩ : HardDisk).calculate_seek_time 2).1 =
        ((⟨100, 10, 1, 5, 7500, 2⟩ : HardDisk).calculate_seek_time 90).1 :=
  ⟨⟨by decide, by decide, by decide, by decide⟩,
   claim10_seek_symmetry ⟨100, 10, 1, 5, 7500, 0⟩ 90 2 (by decide) (by decide)
     (by decide) (by decide)⟩
